import Mathlib

/-!
Verification of the `json-solution-tree` repository (files `src/parser.py` and
`src/solution_tree.py`) against its natural-language specification.

The development is a shallow embedding:

* `Val` models the dynamically-typed Python values the library manipulates:
  JSON-like data (`None`, `bool`, `int`, `float`, `str`, `list`, `dict`) plus
  the domain objects produced by constructor callbacks of the solution-tree
  compiler (`ValueMatcher`, `Query`).  Python float payloads are modelled
  abstractly by integers; no claim below depends on float arithmetic.
* Python `==` is modelled by `pyEq`, implemented by comparing injective
  canonical key strings (`ckey`).  The canonical key conflates `True`/`1` and
  `1`/`1.0` exactly as Python `==` does.  Python's order-insensitive dict
  equality is approximated order-sensitively; no claim compares dictionaries
  modulo key order.
* The parser-combinator algebra of `src/parser.py` is embedded as the
  inductive `Parser`; `isMatching`, `parseValue` and `getSyntaxString`
  faithfully follow the three methods of each combinator class.  A raised
  `SyntaxPrasingError` is modelled as `Except.error (.spe msg)` with the
  rendered message string; a Python `TypeError` (e.g. iterating a
  non-iterable during a blind parse) is `Except.error .typeError`.
* The mutually recursive `Scoped`/`Scope` mechanism is embedded separately
  (`SParser`), with a fuel parameter standing for the Python interpreter's
  call-stack ceiling: running out of fuel models the interpreter's
  `RecursionError`, a distinct outcome from a parse error.
* The solution-tree evaluation model (`ValueMatcher`, `Query`, `Setter`,
  `Condition`, `Switch`) follows `src/solution_tree.py`; `SolutionTree`'s
  selector-cache wrapper (`cache_function`) is embedded with an explicit
  cache state threaded through evaluation (`CMatcher`, `matchUpdateCached`).
-/

/-- A dynamically-typed value, covering the JSON-like data parsed by the
combinators and the domain objects built by the solution-tree constructor
callbacks.  Python floats are abstracted to integer payloads. -/
inductive Val where
  | none_ : Val
  | bool (b : Bool) : Val
  | int (n : Int) : Val
  | float (n : Int) : Val
  | str (s : String) : Val
  | list (xs : List Val) : Val
  | dict (kvs : List (String × Val)) : Val
  | matcherV (sel : String) (vals : List Val) : Val
  | queryV (ms : List (String × Val)) : Val

/-- The exact runtime type of a value, as Python's `type(x)` sees it
(`type(True) is int` is `False`, so `bool` and `int` are distinct tags). -/
inductive PyTy where
  | noneT | boolT | intT | floatT | strT | listT | dictT | matcherT | queryT
  deriving DecidableEq, Repr

/-- Python `type(x)` of a value. -/
def pyTypeOf : Val → PyTy
  | .none_ => .noneT
  | .bool _ => .boolT
  | .int _ => .intT
  | .float _ => .floatT
  | .str _ => .strT
  | .list _ => .listT
  | .dict _ => .dictT
  | .matcherV _ _ => .matcherT
  | .queryV _ => .queryT

/-- Python's `type(x).__qualname__` for the modelled types. -/
def pyTyName : PyTy → String
  | .noneT => "NoneType"
  | .boolT => "bool"
  | .intT => "int"
  | .floatT => "float"
  | .strT => "str"
  | .listT => "list"
  | .dictT => "dict"
  | .matcherT => "ValueMatcher"
  | .queryT => "Query"

mutual
/-- Injective canonical comparison key of a value: two values receive the same
key exactly when Python `==` considers them equal (booleans and floats are
collapsed onto their numeric value, mirroring `True == 1` and `1 == 1.0`).
String and length prefixes keep the encoding prefix-free. -/
def ckey : Val → String
  | .none_ => "N;"
  | .bool b => "i" ++ toString (if b then (1 : Int) else 0) ++ ";"
  | .int n => "i" ++ toString n ++ ";"
  | .float n => "i" ++ toString n ++ ";"
  | .str s => "s" ++ toString s.length ++ ":" ++ s ++ ";"
  | .list xs => "l(" ++ ckeyList xs ++ ")"
  | .dict kvs => "d(" ++ ckeyKVs kvs ++ ")"
  | .matcherV s vals => "m" ++ toString s.length ++ ":" ++ s ++ "(" ++ ckeyList vals ++ ")"
  | .queryV ms => "q(" ++ ckeyKVs ms ++ ")"

def ckeyList : List Val → String
  | [] => ""
  | x :: xs => ckey x ++ ckeyList xs

def ckeyKVs : List (String × Val) → String
  | [] => ""
  | (k, v) :: rest => "k" ++ toString k.length ++ ":" ++ k ++ ckey v ++ ckeyKVs rest
end

/-- Python `==` on values (see `ckey`). -/
def pyEq (x y : Val) : Bool := ckey x == ckey y

/-- Python `x in s` for a set `s` of values: membership up to `==`. -/
def vmem (x : Val) (vals : List Val) : Bool := vals.any (fun w => pyEq x w)

/-- First-match lookup in an association list, modelling `target[key]` /
`key in target` on a Python dict (whose keys are unique). -/
def dlookup {β : Type} : List (String × β) → String → Option β
  | [], _ => none
  | (k, v) :: rest, key => if k = key then some v else dlookup rest key

/-- Python `key in d` on a dict. -/
def dmem {β : Type} (l : List (String × β)) (key : String) : Bool :=
  (dlookup l key).isSome

/-- Replace the value stored under an existing key, keeping its position
(Python dict assignment on a present key). -/
def dset {β : Type} (l : List (String × β)) (key : String) (b : β) : List (String × β) :=
  l.map (fun kv => if kv.1 = key then (key, b) else kv)

/-- Python `dict.update`: existing keys are overwritten in place, new keys are
appended in iteration order. -/
def dictUpdate (base upd : List (String × Val)) : List (String × Val) :=
  upd.foldl (fun acc kv => if dmem acc kv.1 then dset acc kv.1 kv.2 else acc ++ [kv]) base

mutual
/-- Python `str(x)` as used by `show_part` and syntax strings: reasonable renderings
of the modelled values (exact `pprint` layout is abstracted; no claim below
depends on the precise characters of a message). -/
def pyStrAux : Bool → Val → String
  | _, .none_ => "None"
  | _, .bool b => if b then "True" else "False"
  | _, .int n => toString n
  | _, .float n => toString n ++ ".0"
  | asRepr, .str s => if asRepr then "\x27" ++ s ++ "\x27" else s
  | _, .list xs => "[" ++ pyStrList xs ++ "]"
  | _, .dict kvs => "\x7b" ++ pyStrKVs kvs ++ "\x7d"
  | _, .matcherV s vals => "ValueMatcher(\x7b" ++ pyStrList vals ++ "\x7d " ++ s ++ ")"
  | _, .queryV ms => "Query \x7b" ++ pyStrKVs ms ++ "\x7d"

def pyStrList : List Val → String
  | [] => ""
  | [x] => pyStrAux true x
  | x :: xs => pyStrAux true x ++ ", " ++ pyStrList xs

def pyStrKVs : List (String × Val) → String
  | [] => ""
  | [(k, v)] => "\x27" ++ k ++ "\x27: " ++ pyStrAux true v
  | (k, v) :: rest => "\x27" ++ k ++ "\x27: " ++ pyStrAux true v ++ ", " ++ pyStrKVs rest
end

/-- Python `str(x)`. -/
def pyStr (v : Val) : String := pyStrAux false v

/-- Model of `show_part`: the string of the value, truncated to 100 characters. -/
def showPart (target : Val) : String :=
  let r := pyStr target
  if r.length < 100 then r else (r.take 100) ++ "..."

/-- The parser-combinator algebra of `src/parser.py`.  Each variant carries
the same fields as the corresponding Python class; every optional
`constructor` argument is modelled as a total function `Val → Val` (the
default being the identity, exactly as `constructor or identity` in the
source).  `Opt` is a peer variant, as in the source where `Opt` subclasses
`Parser`. -/
inductive Parser where
  | type (t : PyTy) (ctor : Val → Val)
  | enumerated (values : List Val) (ctor : Val → Val)
  | const (value : Val) (ctor : Val → Val)
  | identity (matcher : Parser) (ctor : Val → Val)
  | dictOf (matcher : Parser) (ctor : Val → Val) (keyIsAllowed : String → Bool)
  | listOf (matcher : Parser) (ctor : Val → Val)
  | opt (matcher : Parser)
  | dictExp (typesDict : List (String × Parser)) (ctor : Val → Val)
  | unionExp (matchers : List Parser) (ctor : Val → Val)

/-- Python `type(matcher) is Opt`. -/
def isOpt : Parser → Bool
  | .opt _ => true
  | _ => false

/-- Python `textwrap.indent(s, "  ")`: prefix every line holding content. -/
def indentPy (s : String) : String :=
  String.intercalate "\n"
    ((s.splitOn "\n").map (fun l => if l.trim.isEmpty then l else "  " ++ l))

/-- Python `str.lstrip(" ")`. -/
def lstripSpaces (s : String) : String := s.dropWhile (· = ' ')

mutual
/-- Model of `get_syntax_string`, per combinator class of `src/parser.py`.  The
`continue_` flag is inert in this scope-free algebra but kept for fidelity.
The set layout of `pformat` in `Enumerated.get_syntax_string` is abstracted
to the insertion order of the values. -/
def getSyntaxString (continue_ : Bool) : Parser → String
  | .type t _ => pyTyName t
  | .enumerated values _ => "enum\x7b" ++ pyStrList values ++ "\x7d"
  | .const value _ => "const" ++ pyStr value
  | .identity m _ => getSyntaxString continue_ m
  | .dictOf m _ _ => "\x7b [str]: " ++ getSyntaxString continue_ m ++ " \x7d"
  | .listOf m _ => getSyntaxString continue_ m ++ "[]"
  | .opt m => getSyntaxString continue_ m
  | .dictExp fields _ =>
      indentPy ("\x7b" ++ synFields continue_ fields ++ "\n\x7d")
  | .unionExp ms _ => indentPy (synAlts continue_ ms)

def synFields (continue_ : Bool) : List (String × Parser) → String
  | [] => ""
  | (key, m) :: rest =>
      "\n  " ++
      (match m with
       | .opt inner => key ++ ": ?(" ++ getSyntaxString continue_ inner ++ ")"
       | other => key ++ ": " ++ getSyntaxString continue_ other) ++
      "," ++ synFields continue_ rest

def synAlts (continue_ : Bool) : List Parser → String
  | [] => ""
  | m :: rest => "\n| " ++ lstripSpaces (getSyntaxString continue_ m) ++ synAlts continue_ rest
end

mutual
/-- Model of `is_matching`, per combinator class of `src/parser.py`.  Note the source
behaviours preserved here: `ListOf.is_matching` checks every element deeply
and ignores the `shallow` flag (line 188 calls `is_matching(v)` with the
default); `DictExp.is_matching` checks unknown keys and required presence
always, and per-field deep matches only when not shallow (the per-field call
on line 242 again uses the default, deep, flag); `DictOf.is_matching`
propagates `shallow` into its value checks. -/
def isMatching : Parser → Val → Bool → Bool
  | .type t _, v, _ => pyTypeOf v == t
  | .enumerated values _, v, _ =>
      (values.any (fun w => pyTypeOf w == pyTypeOf v)) && vmem v values
  | .const value _, v, _ => pyEq v value
  | .identity m _, v, sh => isMatching m v sh
  | .dictOf m _ allowed, v, sh =>
      (match v with
       | .dict kvs => kvs.all (fun kv => allowed kv.1) && dictOfValsMatch m sh kvs
       | _ => false)
  | .listOf m _, v, _ =>
      (match v with
       | .list xs => listAllMatch m xs
       | _ => false)
  | .opt m, v, sh => isMatching m v sh
  | .dictExp fields _, v, sh =>
      (match v with
       | .dict kvs =>
          kvs.all (fun kv => fields.any (fun f => f.1 = kv.1)) &&
          (fields.all (fun f => isOpt f.2 || kvs.any (fun kv => kv.1 = f.1))) &&
          (sh || fieldsMatch fields kvs)
       | _ => false)
  | .unionExp ms _, v, sh => anyMatch ms v sh

def dictOfValsMatch (m : Parser) (sh : Bool) : List (String × Val) → Bool
  | [] => true
  | kv :: rest => isMatching m kv.2 sh && dictOfValsMatch m sh rest

def listAllMatch (m : Parser) : List Val → Bool
  | [] => true
  | x :: xs => isMatching m x false && listAllMatch m xs

def fieldsMatch : List (String × Parser) → List (String × Val) → Bool
  | [], _ => true
  | (k, m) :: rest, kvs =>
      (match dlookup kvs k with
       | some v => isMatching m v false
       | none => true) && fieldsMatch rest kvs

def anyMatch : List Parser → Val → Bool → Bool
  | [], _, _ => false
  | m :: ms, v, sh => isMatching m v sh || anyMatch ms v sh
end

/-- The exceptions a parse can raise: the dedicated `SyntaxPrasingError`
carrying its rendered message, or a host-level `TypeError` (raised by Python
when a blind `ListOf.parse_value` iterates a non-iterable value). -/
inductive PyExc where
  | spe (msg : String)
  | typeError
  deriving DecidableEq, Repr

/-- Outcome of `parse_value`. -/
abbrev PRes := Except PyExc Val

/-- The message text assembled by `Parser.raise_parse_error`. -/
def mkParseMsg (shown syn : String) (additional : Option (List String)) : String :=
  "Failed to parse " ++ shown ++ ", expected \n" ++ syn ++
    (match additional with
     | none => ""
     | some ms => "\n" ++ String.intercalate "\n" ms)

/-- Model of `raise_parse_error(target, additional_messages)` on parser `p`. -/
def raiseMsg (p : Parser) (target : Val) (additional : Option (List String)) : PyExc :=
  .spe (mkParseMsg (showPart target) (getSyntaxString true p) additional)

/-- Message `Unexpected key "k"`. -/
def unexpectedKeyMsg (k : String) : String := "Unexpected key \"" ++ k ++ "\""

/-- Message `Expected key "k"`. -/
def expectedKeyMsg (k : String) : String := "Expected key \"" ++ k ++ "\""

/-- Python iteration (`for value in target`): lists yield their elements,
strings their characters (as one-character strings), dicts their keys;
everything else raises `TypeError`. -/
def pyIter : Val → Except PyExc (List Val)
  | .list xs => .ok xs
  | .str s => .ok (s.toList.map (fun c => .str (String.singleton c)))
  | .dict kvs => .ok (kvs.map (fun kv => .str kv.1))
  | _ => .error .typeError

mutual
/-- Model of `parse_value`, per combinator class of `src/parser.py`.  Behaviours
preserved from the source: `Type`/`Enumerated`/`Const`/`Identity` re-check
`is_matching` regardless of `parse_blindly`; `ListOf` skips its check when
blind and then iterates the raw value (hence `TypeError` on non-iterables);
`DictOf` validates only dict-ness and keys, passing the incoming blind flag
to its values; `DictExp` validates only keys and presence, then parses every
present field blindly; `UnionExp` probes alternatives shallowly, parses
non-blindly, catches only `SyntaxPrasingError`, collects those messages, and
aggregates them when no alternative succeeds. -/
def parseValue : Parser → Val → Bool → PRes
  | .type t c, v, _ =>
      if isMatching (.type t c) v false then .ok (c v)
      else .error (raiseMsg (.type t c) v none)
  | .enumerated values c, v, _ =>
      if isMatching (.enumerated values c) v false then .ok (c v)
      else .error (raiseMsg (.enumerated values c) v none)
  | .const value c, v, _ =>
      if isMatching (.const value c) v false then .ok (c v)
      else .error (raiseMsg (.const value c) v none)
  | .identity m c, v, _ =>
      if isMatching (.identity m c) v false then
        (parseValue m v true).map c
      else .error (raiseMsg (.identity m c) v none)
  | .dictOf m c allowed, v, blind =>
      (match v with
       | .dict kvs =>
          let bad := kvs.filter (fun kv => !allowed kv.1)
          if bad.isEmpty then
            (parseDictOfVals m blind kvs).map (fun rs => c (.dict rs))
          else
            .error (raiseMsg (.dictOf m c allowed) (.dict kvs)
              (some (bad.map (fun kv => unexpectedKeyMsg kv.1))))
       | other => .error (raiseMsg (.dictOf m c allowed) other none))
  | .listOf m c, v, blind =>
      if !blind && !isMatching (.listOf m c) v false then
        .error (raiseMsg (.listOf m c) v none)
      else
        (match pyIter v with
         | .error e => .error e
         | .ok elems => (parseListBlind m elems).map (fun rs => c (.list rs)))
  | .opt m, v, blind => parseValue m v blind
  | .dictExp fields c, v, _ =>
      (match v with
       | .dict kvs =>
          let msgs :=
            (kvs.filter (fun kv => !(fields.any (fun f => f.1 = kv.1)))).map
              (fun kv => unexpectedKeyMsg kv.1) ++
            (fields.filter (fun f => !isOpt f.2 && !(kvs.any (fun kv => kv.1 = f.1)))).map
              (fun f => expectedKeyMsg f.1)
          if msgs.isEmpty then
            (parseFields fields kvs).map (fun rs => c (.dict rs))
          else .error (raiseMsg (.dictExp fields c) (.dict kvs) (some msgs))
       | other => .error (raiseMsg (.dictExp fields c) other none))
  | .unionExp ms c, v, _ =>
      goUnion (showPart v) (getSyntaxString true (.unionExp ms c)) c v ms []
termination_by p _ _ => (sizeOf p, 0)

def parseListBlind (m : Parser) : List Val → Except PyExc (List Val)
  | [] => .ok []
  | x :: xs =>
      match parseValue m x true with
      | .error e => .error e
      | .ok r =>
        match parseListBlind m xs with
        | .error e => .error e
        | .ok rs => .ok (r :: rs)
termination_by xs => (sizeOf m, 1 + sizeOf xs)

def parseDictOfVals (m : Parser) (blind : Bool) :
    List (String × Val) → Except PyExc (List (String × Val))
  | [] => .ok []
  | (k, v) :: rest =>
      match parseValue m v blind with
      | .error e => .error e
      | .ok r =>
        match parseDictOfVals m blind rest with
        | .error e => .error e
        | .ok rs => .ok ((k, r) :: rs)
termination_by xs => (sizeOf m, 1 + sizeOf xs)

def parseFields : List (String × Parser) → List (String × Val) →
    Except PyExc (List (String × Val))
  | [], _ => .ok []
  | (k, m) :: rest, kvs =>
      match dlookup kvs k with
      | none => parseFields rest kvs
      | some v =>
        -- The source calls `matcher.matcher.parse_value(..., True)` when the
        -- field is an `Opt` and `matcher.parse_value(..., True)` otherwise;
        -- since `Opt.parse_value` delegates to its inner matcher with the
        -- same flag, both cases equal `parseValue m v true` here.
        match parseValue m v true with
        | .error e => .error e
        | .ok r =>
          match parseFields rest kvs with
          | .error e => .error e
          | .ok rs => .ok ((k, r) :: rs)
termination_by fields _ => (sizeOf fields, 0)

def goUnion (shown base : String) (c : Val → Val) (v : Val) :
    List Parser → List String → PRes
  | [], messages => .error (.spe (mkParseMsg shown base (some messages)))
  | m :: rest, messages =>
      if isMatching m v true then
        match parseValue m v false with
        | .ok parsed => .ok (c parsed)
        | .error (.spe emsg) => goUnion shown base c v rest (messages ++ [emsg])
        | .error e => .error e
      else goUnion shown base c v rest messages
termination_by ms _ => (sizeOf ms, 0)
end

/-- The `SyntaxPrasingError` messages collected by `UnionExp.parse_value`:
one per alternative that shallow-matches and whose construction raises the
parse-error variant, in declaration order. -/
def collectMsgs (v : Val) : List Parser → List String
  | [] => []
  | m :: rest =>
      if isMatching m v true then
        match parseValue m v false with
        | .error (.spe emsg) => emsg :: collectMsgs v rest
        | _ => collectMsgs v rest
      else collectMsgs v rest

/-- Does a parse outcome carry the dedicated parse-error variant? -/
def isSpeRes : PRes → Bool
  | .error (.spe _) => true
  | _ => false

/-- Model of `ValueMatcher` of `src/solution_tree.py`: a selector callable with a
finite acceptance set.  `__init__` always sets `_is_negative = False`; the
field is kept for fidelity. -/
structure ValueMatcher (α : Type) where
  selector : α → Val
  values : List Val
  isNegative : Bool

/-- Model of `ValueMatcher.match`: `self._selector(value) in self._values`. -/
def ValueMatcher.matchv {α : Type} (m : ValueMatcher α) (o : α) : Bool :=
  vmem (m.selector o) m.values

/-- Model of `ValueMatcher.intersect`.  The source first returns `None` when `other`
is not a `ValueMatcher`; the model has a single matcher kind, so that guard
is vacuous.  The set intersection `self._values & other._values` is modelled
by filtering the left set by membership in the right one; the new matcher
keeps the left selector and `is_empty` intersection yields `none`. -/
def ValueMatcher.intersect {α : Type} (self other : ValueMatcher α) :
    Option (ValueMatcher α) :=
  let newVals := self.values.filter (fun v => vmem v other.values)
  if newVals.isEmpty then none
  else some ⟨self.selector, newVals, false⟩

/-- Model of `Query` of `src/solution_tree.py`: named matchers plus the selector
table. -/
structure Query (α : Type) where
  matchers : List (String × ValueMatcher α)
  selectors : List (String × (α → Val))

/-- Conjunction of the matchers of a matcher table. -/
def listMatch {α : Type} (l : List (String × ValueMatcher α)) (o : α) : Bool :=
  l.all (fun km => km.2.matchv o)

/-- Model of `Query.match`: every matcher accepts. -/
def Query.matchq {α : Type} (q : Query α) (o : α) : Bool :=
  listMatch q.matchers o

/-- The loop body of `Query.intersect`: fold the right-hand matchers into a
copy of the left-hand table, intersecting on shared keys and aborting on an
empty intersection. -/
def interLoop {α : Type} :
    List (String × ValueMatcher α) → List (String × ValueMatcher α) →
      Option (List (String × ValueMatcher α))
  | acc, [] => some acc
  | acc, (k, m) :: rest =>
      match dlookup acc k with
      | some m0 =>
        match m0.intersect m with
        | none => none
        | some mi => interLoop (dset acc k mi) rest
      | none => interLoop (acc ++ [(k, m)]) rest

/-- Model of `Query.intersect`: merge key-by-key, keep the left query's selector
table. -/
def Query.intersect {α : Type} (q1 q2 : Query α) : Option (Query α) :=
  (interLoop q1.matchers q2.matchers).map (fun ms => ⟨ms, q1.selectors⟩)

/-- Model of `Setter`: an update mapping merged into the output dict. -/
structure Setter where
  updateDict : List (String × Val)

/-- Model of `Setter.update`: `outer_dict.update(self.update_dict)`. -/
def Setter.updateS (s : Setter) (outer : List (String × Val)) : List (String × Val) :=
  dictUpdate outer s.updateDict

/-- Output mapping accumulated by an evaluation. -/
abbrev Output := List (String × Val)

mutual
/-- Model of `Condition` of `src/solution_tree.py` (the `_annotation` field is named
`annot` here). -/
inductive Condition (α : Type) where
  | mk (query : Query α) (setter : Option Setter) (annot : Option String)
      (subconditions : Option (Switch α))

/-- Model of `SwitchApplyFirst` / `SwitchApplyAll`, as the two variants of one sum. -/
inductive Switch (α : Type) where
  | applyFirst (conditions : List (Condition α))
  | applyAll (conditions : List (Condition α))
end

/-- The query of a condition. -/
def queryOfC {α : Type} : Condition α → Query α
  | .mk q _ _ _ => q

mutual
/-- Model of `Condition.match(value, output)`: evaluate the query; on success apply
the setter (if any), recurse into the subconditions (if any), return whether
the query succeeded.  Output mutation is modelled by returning the new
output. -/
def Condition.matchc {α : Type} : Condition α → α → Output → Bool × Output
  | .mk q setter _ sub, o, out =>
      if q.matchq o then
        let out1 := match setter with
          | some s => s.updateS out
          | none => out
        let out2 := match sub with
          | some sw => (Switch.matchs sw o out1).2
          | none => out1
        (true, out2)
      else (false, out)

/-- Model of `SwitchApplyFirst.match` / `SwitchApplyAll.match`. -/
def Switch.matchs {α : Type} : Switch α → α → Output → Bool × Output
  | .applyFirst conds, o, out => condsFirst conds o out
  | .applyAll conds, o, out => condsAll conds o out

/-- Loop of `SwitchApplyFirst.match`: stop at the first condition that
matches. -/
def condsFirst {α : Type} : List (Condition α) → α → Output → Bool × Output
  | [], _, out => (false, out)
  | c :: rest, o, out =>
      match Condition.matchc c o out with
      | (true, out1) => (true, out1)
      | (false, out1) => condsFirst rest o out1

/-- Loop of `SwitchApplyAll.match`: visit every condition, remember whether
any matched. -/
def condsAll {α : Type} : List (Condition α) → α → Output → Bool × Output
  | [], _, out => (false, out)
  | c :: rest, o, out =>
      let r1 := Condition.matchc c o out
      let r2 := condsAll rest o r1.2
      (r1.1 || r2.1, r2.2)
end

/-- Model of `SolutionTree.match_update` for a compiled tree whose matchers hold pure
selector callables (the `ValueMatcher`/`Query`/`Condition`/`Switch` classes
themselves are cache-agnostic; the caching wrapper installed by
`SolutionTree.__init__` is modelled separately below): start from a fresh
empty output, walk the tree, return the accumulated output. -/
def matchUpdate {α : Type} (tree : Switch α) (o : α) : Output :=
  (Switch.matchs tree o []).2

/-- A matcher whose selector was wrapped by `cache_function` in
`SolutionTree.__init__`: the wrapper consults the instance-wide
`selectors_cache` under the selector's name before calling the raw
selector. -/
structure CMatcher (α : Type) where
  name : String
  selector : α → Val
  values : List Val

/-- Model of the `cache_function` wrapper applied to one call: a cache hit returns the
stored value untouched; a miss calls the selector and stores the result
(`cache_dict.setdefault`). -/
def cacheCall {α : Type} (m : CMatcher α) (o : α) (cache : List (String × Val)) :
    Val × List (String × Val) :=
  match dlookup cache m.name with
  | some v => (v, cache)
  | none => (m.selector o, cache ++ [(m.name, m.selector o)])

/-- Model of `ValueMatcher.match` through the caching wrapper. -/
def CMatcher.matchm {α : Type} (m : CMatcher α) (o : α) (cache : List (String × Val)) :
    Bool × List (String × Val) :=
  let r := cacheCall m o cache
  (vmem r.1 m.values, r.2)

/-- Model of `Query.match` through the caching wrapper; the loop returns `False` as
soon as one matcher rejects, so later selectors are not evaluated (and not
cached), exactly as the source's early `return False`. -/
def cqMatch {α : Type} : List (String × CMatcher α) → α → List (String × Val) →
    Bool × List (String × Val)
  | [], _, cache => (true, cache)
  | (_, m) :: rest, o, cache =>
      match m.matchm o cache with
      | (false, c1) => (false, c1)
      | (true, c1) => cqMatch rest o c1

mutual
/-- Model of `Condition` as evaluated by a `SolutionTree` instance (selectors wrapped
with the shared cache). -/
inductive CCondition (α : Type) where
  | mk (query : List (String × CMatcher α)) (setter : Option Setter)
      (subconditions : Option (CSwitch α))

inductive CSwitch (α : Type) where
  | applyFirst (conditions : List (CCondition α))
  | applyAll (conditions : List (CCondition α))
end

mutual
/-- Model of `Condition.match` with the instance cache made explicit. -/
def CCondition.matchc {α : Type} : CCondition α → α → Output → List (String × Val) →
    (Bool × Output) × List (String × Val)
  | .mk q setter sub, o, out, cache =>
      match cqMatch q o cache with
      | (true, c1) =>
        let out1 := match setter with
          | some s => s.updateS out
          | none => out
        match sub with
        | some sw =>
          match CSwitch.matchs sw o out1 c1 with
          | (r, c2) => ((true, r.2), c2)
        | none => ((true, out1), c1)
      | (false, c1) => ((false, out), c1)

def CSwitch.matchs {α : Type} : CSwitch α → α → Output → List (String × Val) →
    (Bool × Output) × List (String × Val)
  | .applyFirst conds, o, out, cache => ccondsFirst conds o out cache
  | .applyAll conds, o, out, cache => ccondsAll conds o out cache

def ccondsFirst {α : Type} : List (CCondition α) → α → Output → List (String × Val) →
    (Bool × Output) × List (String × Val)
  | [], _, out, cache => ((false, out), cache)
  | c :: rest, o, out, cache =>
      match CCondition.matchc c o out cache with
      | ((true, out1), c1) => ((true, out1), c1)
      | ((false, out1), c1) => ccondsFirst rest o out1 c1

def ccondsAll {α : Type} : List (CCondition α) → α → Output → List (String × Val) →
    (Bool × Output) × List (String × Val)
  | [], _, out, cache => ((false, out), cache)
  | c :: rest, o, out, cache =>
      match CCondition.matchc c o out cache with
      | (r1, c1) =>
        match ccondsAll rest o r1.2 c1 with
        | (r2, c2) => ((r1.1 || r2.1, r2.2), c2)
end

/-- Model of `SolutionTree.match_update` on an instance whose `selectors_cache`
currently holds `cache`: a fresh output dict is created, the tree is walked
with the shared cache, and the (possibly grown) cache survives the call —
`match_update` never clears it. -/
def matchUpdateCached {α : Type} (tree : CSwitch α) (o : α)
    (cache : List (String × Val)) : Output × List (String × Val) :=
  match CSwitch.matchs tree o [] cache with
  | (r, c1) => (r.2, c1)

/-- The minimal fragment of the combinator algebra needed to exercise the
`Scoped`/`Scope` mechanism of `src/parser.py`: a primitive type matcher and
a late-bound named reference that resolves through its scope on every
call. -/
inductive SParser where
  | typeS (t : PyTy)
  | scopedS (name : String)

/-- Model of `Scope.types_dict`: the productions table. -/
abbrev ScopeEnv := List (String × SParser)

/-- Outcome of running a scoped parser under the Python interpreter: a
result, a `SyntaxPrasingError`, the `ValueError` raised by
`Scope.get_scoped_parser` for an undefined production, or the interpreter's
`RecursionError` once the call stack exceeds its ceiling (the fuel
parameter below). -/
inductive SOutcome (β : Type) where
  | ok (b : β)
  | parseError (msg : String)
  | constructionError (msg : String)
  | recursionLimit
  deriving Repr

/-- Model of `is_matching` over the scoped fragment.  `Scoped.is_matching` resolves
its name through the scope on every call and recurses; each resolution
consumes one unit of fuel, standing for the interpreter stack frames the
unbounded recursion consumes.  No recursion-depth counter exists in the
source: exhaustion surfaces as `RecursionError`
(`SOutcome.recursionLimit`), not as a parse error. -/
def sIsMatching (env : ScopeEnv) : Nat → SParser → Val → Bool → SOutcome Bool
  | _, .typeS t, v, _ => .ok (pyTypeOf v == t)
  | 0, .scopedS _, _, _ => .recursionLimit
  | fuel + 1, .scopedS n, v, sh =>
      match dlookup env n with
      | some p => sIsMatching env fuel p v sh
      | none =>
          .constructionError
            ("Scoped Parser construction failed, ::" ++ n ++ " does not exist.")

/-- Model of `parse_value` over the scoped fragment (identity constructors). -/
def sParseValue (env : ScopeEnv) : Nat → SParser → Val → Bool → SOutcome Val
  | _, .typeS t, v, _ =>
      if pyTypeOf v == t then .ok v
      else .parseError (mkParseMsg (showPart v) (pyTyName t) none)
  | 0, .scopedS _, _, _ => .recursionLimit
  | fuel + 1, .scopedS n, v, blind =>
      match dlookup env n with
      | some p => sParseValue env fuel p v blind
      | none =>
          .constructionError
            ("Scoped Parser construction failed, ::" ++ n ++ " does not exist.")

/-- The `WhenClause` production synthesised by `SolutionTree.parse`
(`src/solution_tree.py`, lines 381-406), instantiated for a single declared
selector: the field named `selName` is optional and accepts either one value
matching the selector's parser (wrapped into a `ValueMatcher` holding that
single value) or a list of such values (wrapped into a `ValueMatcher`
holding them all); the `DictExp` constructor packages the parsed matcher
mapping into a `Query` (represented as the `Val.queryV`/`Val.matcherV`
constructor-output values, with selectors referenced by name). -/
def whenClauseP (selName : String) (selType : Parser) : Parser :=
  .dictExp
    [(selName,
      .opt (.unionExp
        [ .identity selType (fun x => .matcherV selName [x]),
          .listOf selType
            (fun xs =>
              match xs with
              | .list l => .matcherV selName l
              | other => other) ]
        id))]
    (fun d =>
      match d with
      | .dict ms => .queryV ms
      | other => other)

/-- Key list of an association list is duplicate-free (Python dicts
guarantee this). -/
def keysNodup {β : Type} (l : List (String × β)) : Prop :=
  (l.map Prod.fst).Nodup

/-- Matchers stored under the same key in the two tables use the same
selector (true of every query compiled by `SolutionTree.parse`, whose
matchers all draw from one selector table). -/
def SelCompat {α : Type} (l1 l2 : List (String × ValueMatcher α)) : Prop :=
  ∀ k m1 m2, dlookup l1 k = some m1 → dlookup l2 k = some m2 →
    m1.selector = m2.selector

theorem pyEq_symm {x y : Val} (h : pyEq x y = true) : pyEq y x = true := by
  simp only [pyEq, beq_iff_eq] at *
  exact h.symm

theorem pyEq_trans {x y z : Val} (h1 : pyEq x y = true) (h2 : pyEq y z = true) :
    pyEq x z = true := by
  simp only [pyEq, beq_iff_eq] at *
  exact h1.trans h2

/-- C2: refuted as stated — the code can raise a host-level `TypeError`
rather than the single parse-error variant.  `DictExp.parse_value` validates
only key presence and then parses every field blindly; a `ListOf` field
handed the non-iterable field value `5` iterates it and raises `TypeError`,
which escapes to the caller. -/
theorem dictExp_blind_field_raises_typeError :
    parseValue (.dictExp [("a", .listOf (.type .intT id) id)] id)
        (.dict [("a", .int 5)]) false
      = .error .typeError := by
  simp [parseValue, parseFields, parseListBlind, isMatching, pyIter, dlookup, isOpt,
    Except.map]

/-- C5: refuted as stated — `is_matching` false does not imply `parse_value`
raises.  On `{"a": "xy"}` against `DictExp({"a": ListOf(Type(str))})`,
`is_matching` is false (the field is not a list), yet the blind field parse
iterates the string and returns `{"a": ["x", "y"]}` successfully. -/
theorem dictExp_blind_parse_accepts_nonmatching :
    isMatching (.dictExp [("a", .listOf (.type .strT id) id)] id)
        (.dict [("a", .str "xy")]) false = false ∧
    parseValue (.dictExp [("a", .listOf (.type .strT id) id)] id)
        (.dict [("a", .str "xy")]) false
      = .ok (.dict [("a", .list [.str "x", .str "y"])]) := by
  constructor
  · simp [isMatching, fieldsMatch, listAllMatch, dlookup, isOpt, pyTypeOf]
  · simp [parseValue, parseFields, parseListBlind, isMatching, pyIter, dlookup,
      isOpt, pyTypeOf, Except.map, String.singleton]
    exact ⟨rfl, rfl⟩

/-- C3 counterexample: a free-standing `Opt` is not rejected — at the
concrete input `5`, `Opt(Type(int))` matches and parses exactly like an
ordinary parser delegating to its inner matcher, with no construction
error of any kind. -/
theorem opt_free_standing_works_cex :
    isMatching (.opt (.type .intT id)) (.int 5) false = true ∧
    parseValue (.opt (.type .intT id)) (.int 5) false = .ok (.int 5) := by
  constructor
  · simp [isMatching, pyTypeOf]
  · simp [parseValue, isMatching, pyTypeOf]

/-- C3 amended: `Opt` used anywhere (in particular free-standing, outside a
`DictExp` field mapping) is accepted and behaves as an ordinary parser: all
three operations delegate to the inner matcher, and no construction-time
check rejects it. -/
theorem opt_delegates (m : Parser) (v : Val) (sh b c : Bool) :
    isMatching (.opt m) v sh = isMatching m v sh ∧
    parseValue (.opt m) v b = parseValue m v b ∧
    getSyntaxString c (.opt m) = getSyntaxString c m := by
  refine ⟨?_, ?_, ?_⟩
  · simp [isMatching]
  · simp [parseValue]
  · simp [getSyntaxString]

/-- C4 counterexample: `ListOf(Type(int)).is_matching(["a"], shallow=true)`
is `false`, not `true` — the shallow flag does not suppress recursion into
the list's elements. -/
theorem listOf_shallow_checks_elements_cex :
    isMatching (.listOf (.type .intT id) id) (.list [.str "a"]) true = false := by
  simp [isMatching, listAllMatch, pyTypeOf]

/-- Helper equation: `listAllMatch` is the conjunction of deep element matches. -/
theorem listAllMatch_eq_all (m : Parser) (xs : List Val) :
    listAllMatch m xs = xs.all (fun x => isMatching m x false) := by
  induction xs with
  | nil => simp [listAllMatch]
  | cons x rest ih => simp [listAllMatch, ih]

set_option maxRecDepth 4000 in
/-- C4 amended: `ListOf.is_matching` ignores the `shallow` flag entirely —
its result with `shallow=true` equals its deep result, namely: the value is
a list and every element deeply matches the inner parser.  (Only `DictExp`
uses `shallow` to skip its per-field checks; `DictOf` recurses into its
values propagating the flag.) -/
theorem listOf_shallow_amended (m : Parser) (c : Val → Val) (sh : Bool) :
    (∀ v, isMatching (.listOf m c) v sh = isMatching (.listOf m c) v false) ∧
    (∀ xs, isMatching (.listOf m c) (.list xs) sh
        = xs.all (fun x => isMatching m x false)) := by
  constructor
  · intro v
    cases v <;> simp [isMatching]
  · intro xs
    simp [isMatching, listAllMatch_eq_all]

/-- C9 counterexample: the left-recursive scope `p -> p` exhausts the
interpreter's call stack — the outcome at stack ceiling 100 is the
`RecursionError` of the host runtime (`recursionLimit`), not a parse
error.  No recursion-depth counter exists in `Scoped`/`Scope`. -/
theorem scoped_self_recursion_cex :
    sIsMatching [("p", .scopedS "p")] 100 (.scopedS "p") (.int 0) false
      = .recursionLimit := by
  rfl

/-- C9 amended: `Scoped`/`Scope` have no recursion-depth guard of their own;
on a self-referential production, `is_matching` and `parse_value` recur
until the host interpreter's stack ceiling (any fuel value) is exhausted,
and the resulting `RecursionError` outcome is never the parse-error
variant. -/
theorem scoped_self_recursion_amended (fuel : Nat) (v : Val) (sh b : Bool) :
    sIsMatching [("p", .scopedS "p")] fuel (.scopedS "p") v sh = .recursionLimit ∧
    sParseValue [("p", .scopedS "p")] fuel (.scopedS "p") v b = .recursionLimit := by
  induction fuel with
  | zero => exact ⟨rfl, rfl⟩
  | succ n ih =>
    refine ⟨?_, ?_⟩
    · simpa [sIsMatching, dlookup] using ih.1
    · simpa [sParseValue, dlookup] using ih.2

/-- A condition whose query rejects the object leaves the output untouched
and reports `False`. -/
theorem matchc_query_false {α : Type} (q : Query α) (st : Option Setter)
    (an : Option String) (sub : Option (Switch α)) (o : α) (out : Output)
    (h : q.matchq o = false) :
    Condition.matchc (.mk q st an sub) o out = (false, out) := by
  rw [Condition.matchc.eq_def]
  simp [h]

/-- The boolean returned by `Condition.match` is exactly its query's
verdict. -/
theorem matchc_fst {α : Type} (c : Condition α) (o : α) (out : Output) :
    (Condition.matchc c o out).1 = (queryOfC c).matchq o := by
  obtain ⟨q, st, an, sub⟩ := c
  rw [Condition.matchc.eq_def]
  by_cases h : q.matchq o <;> simp [h, queryOfC]

/-- Unfolding of one step of the `SwitchApplyFirst.match` loop. -/
theorem condsFirst_cons {α : Type} (c : Condition α) (rest : List (Condition α))
    (o : α) (out : Output) :
    condsFirst (c :: rest) o out =
      (match Condition.matchc c o out with
       | (true, out1) => (true, out1)
       | (false, out1) => condsFirst rest o out1) := by
  rw [condsFirst.eq_def]

/-- The loop of `SwitchApplyFirst.match` from any running output: the final
output is that of the first condition whose query accepts the object,
applied to the running output; conditions before it leave the output
untouched; if none accepts, the output is returned unchanged. -/
theorem condsFirst_find {α : Type} (o : α) :
    ∀ (conds : List (Condition α)) (out : Output),
      (condsFirst conds o out).2 =
        (match conds.find? (fun c => (queryOfC c).matchq o) with
         | some c => (Condition.matchc c o out).2
         | none => out) := by
  intro conds
  induction conds with
  | nil => intro out; simp [condsFirst]
  | cons c rest ih =>
    intro out
    by_cases hq : (queryOfC c).matchq o = true
    · rw [List.find?_cons_of_pos _ (by simpa using hq)]
      have hb : (Condition.matchc c o out).1 = true := by rw [matchc_fst]; exact hq
      rw [condsFirst_cons]
      cases hm : Condition.matchc c o out with
      | mk b out1 =>
        rw [hm] at hb
        simp only at hb
        subst hb
        simp [hm]
    · rw [List.find?_cons_of_neg _ (by simpa using hq)]
      obtain ⟨q, st, an, sub⟩ := c
      have hq' : q.matchq o = false := by simpa [queryOfC] using hq
      rw [condsFirst_cons]
      rw [matchc_query_false q st an sub o out hq']
      simpa using ih out

/-- C8: under `apply first`, the output of `match_update(o)` equals the
output produced in isolation (from a fresh empty output) by the first
condition, in declaration order, whose query accepts `o`; later conditions
contribute nothing, and if no condition's query accepts `o` the output is
empty. -/
theorem applyFirst_output_is_first_accepted {α : Type}
    (conds : List (Condition α)) (o : α) :
    matchUpdate (.applyFirst conds) o =
      (match conds.find? (fun c => (queryOfC c).matchq o) with
       | some c => (Condition.matchc c o []).2
       | none => []) := by
  have h := condsFirst_find o conds []
  simpa [matchUpdate, Switch.matchs] using h

/-- C10: a `when` clause mapping the declared selector to the empty list
`[]` is accepted by the synthesised `WhenClause` grammar (the `ListOf`
alternative matches the empty list vacuously) and compiles to a
`ValueMatcher` whose acceptance set is empty; a `ValueMatcher` with an empty
acceptance set matches no object, so a condition carrying that query never
applies its setter and leaves every output untouched. -/
theorem whenClause_empty_list_matcher :
    parseValue (whenClauseP "color" (.type .strT id)) (.dict [("color", .list [])]) false
      = .ok (.queryV [("color", .matcherV "color" [])]) ∧
    (∀ (α : Type) (f : α → Val) (neg : Bool) (o : α),
      (ValueMatcher.mk f [] neg).matchv o = false) ∧
    (∀ (α : Type) (f : α → Val) (sels : List (String × (α → Val)))
        (st : Setter) (an : Option String) (sub : Option (Switch α))
        (o : α) (out : Output),
      Condition.matchc
          (.mk (Query.mk [("color", ValueMatcher.mk f [] false)] sels)
            (some st) an sub) o out
        = (false, out)) := by
  refine ⟨?_, ?_, ?_⟩
  · simp [whenClauseP, parseValue, parseFields, parseListBlind, goUnion,
      isMatching, listAllMatch, pyIter, dlookup, isOpt, pyTypeOf, Except.map]
  · intro α f neg o
    simp [ValueMatcher.matchv, vmem]
  · intro α f sels st an sub o out
    have hq : (Query.mk [("color", ValueMatcher.mk f [] false)] sels).matchq o = false := by
      simp [Query.matchq, listMatch, ValueMatcher.matchv, vmem]
    exact matchc_query_false _ _ _ _ _ _ hq

/-- When every alternative that shallow-matches fails with the parse-error
variant, the union loop raises the aggregated union error: base message plus
the collected failure messages of the shallow-matching alternatives, in
declaration order, appended to the messages already accumulated. -/
theorem goUnion_all_fail (shown base : String) (c : Val → Val) (v : Val) :
    ∀ (ms : List Parser) (msgs : List String),
      (∀ p ∈ ms, isMatching p v true = true → isSpeRes (parseValue p v false) = true) →
      goUnion shown base c v ms msgs
        = .error (.spe (mkParseMsg shown base (some (msgs ++ collectMsgs v ms)))) := by
  intro ms
  induction ms with
  | nil =>
    intro msgs _
    simp [goUnion, collectMsgs]
  | cons m rest ih =>
    intro msgs hall
    by_cases hm : isMatching m v true = true
    · have hspe := hall m (by simp) hm
      cases hr : parseValue m v false with
      | ok r =>
        rw [hr] at hspe
        simp [isSpeRes] at hspe
      | error e =>
        cases e with
        | typeError =>
          rw [hr] at hspe
          simp [isSpeRes] at hspe
        | spe emsg =>
          simp only [goUnion]
          rw [hm]
          simp only [if_true, hr]
          rw [ih (msgs ++ [emsg]) (fun q hq hmq => hall q (by simp [hq]) hmq)]
          simp [collectMsgs, hm, hr]
    · have hm' : isMatching m v true = false := by
        simpa using hm
      simp only [goUnion]
      rw [hm']
      simp only [Bool.false_eq_true, if_false]
      rw [ih msgs (fun q hq hmq => hall q (by simp [hq]) hmq)]
      simp [collectMsgs, hm']

/-- The union loop returns the constructed result of the first alternative
that shallow-matches and fully parses, provided every earlier alternative
either does not shallow-match or fails with the parse-error variant (which
the loop traps). -/
theorem goUnion_first_ok (shown base : String) (c : Val → Val) (v : Val)
    (m : Parser) (r : Val) (hm : isMatching m v true = true)
    (hr : parseValue m v false = .ok r) :
    ∀ (pre post : List Parser) (msgs : List String),
      (∀ p ∈ pre, isMatching p v true = true → isSpeRes (parseValue p v false) = true) →
      goUnion shown base c v (pre ++ m :: post) msgs = .ok (c r) := by
  intro pre
  induction pre with
  | nil =>
    intro post msgs _
    simp only [List.nil_append, goUnion]
    rw [hm]
    simp [hr]
  | cons p pre' ih =>
    intro post msgs hall
    by_cases hp : isMatching p v true = true
    · have hspe := hall p (by simp) hp
      cases hrp : parseValue p v false with
      | ok r' =>
        rw [hrp] at hspe
        simp [isSpeRes] at hspe
      | error e =>
        cases e with
        | typeError =>
          rw [hrp] at hspe
          simp [isSpeRes] at hspe
        | spe emsg =>
          simp only [List.cons_append, goUnion]
          rw [hp]
          simp only [if_true, hrp]
          exact ih post (msgs ++ [emsg]) (fun q hq hmq => hall q (by simp [hq]) hmq)
    · have hp' : isMatching p v true = false := by
        simpa using hp
      simp only [List.cons_append, goUnion]
      rw [hp']
      simp only [Bool.false_eq_true, if_false]
      exact ih post msgs (fun q hq hmq => hall q (by simp [hq]) hmq)

/-- C6: `UnionExp.parse_value` tries construction for each alternative that
shallow-matches the value, trapping the parse-error variant, and returns the
constructor applied to the result of the first alternative that both
shallow-matches and parses without error; when no alternative succeeds it
raises a union error whose message aggregates the failure message of every
alternative that shallow-matched, in declaration order. -/
theorem unionExp_first_success_and_aggregation :
    (∀ (pre post : List Parser) (m : Parser) (c : Val → Val) (v r : Val) (b : Bool),
      (∀ p ∈ pre, isMatching p v true = true → isSpeRes (parseValue p v false) = true) →
      isMatching m v true = true →
      parseValue m v false = .ok r →
      parseValue (.unionExp (pre ++ m :: post) c) v b = .ok (c r)) ∧
    (∀ (ms : List Parser) (c : Val → Val) (v : Val) (b : Bool),
      (∀ p ∈ ms, isMatching p v true = true → isSpeRes (parseValue p v false) = true) →
      parseValue (.unionExp ms c) v b
        = .error (.spe (mkParseMsg (showPart v)
            (getSyntaxString true (.unionExp ms c)) (some (collectMsgs v ms))))) := by
  constructor
  · intro pre post m c v r b hpre hm hr
    simp only [parseValue]
    exact goUnion_first_ok _ _ c v m r hm hr pre post [] hpre
  · intro ms c v b hall
    simp only [parseValue]
    rw [goUnion_all_fail _ _ c v ms [] hall]
    simp

/-- Witness for C6 at concrete inputs: over the union
`DictExp({"a": Type(str)}) | DictOf(Type(int))` and the value `{"a": 1}`,
the first alternative shallow-matches but fails construction with the
parse-error variant, so the second alternative's construction wins; and over
the one-alternative union `DictExp({"a": Type(str)})` alone, the same value
produces the aggregated union error. -/
theorem unionExp_first_success_and_aggregation_witness :
    parseValue
        (.unionExp [Parser.dictExp [("a", Parser.type .strT id)] id,
                    Parser.dictOf (.type .intT id) id (fun _ => true)] id)
        (.dict [("a", .int 1)]) false
      = .ok (.dict [("a", .int 1)]) ∧
    parseValue (.unionExp [Parser.dictExp [("a", Parser.type .strT id)] id] id)
        (.dict [("a", .int 1)]) false
      = .error (.spe (mkParseMsg (showPart (.dict [("a", .int 1)]))
          (getSyntaxString true
            (.unionExp [Parser.dictExp [("a", Parser.type .strT id)] id] id))
          (some (collectMsgs (.dict [("a", .int 1)])
            [Parser.dictExp [("a", Parser.type .strT id)] id])))) := by
  have hpre : ∀ p ∈ [Parser.dictExp [("a", Parser.type .strT id)] id],
      isMatching p (.dict [("a", .int 1)]) true = true →
      isSpeRes (parseValue p (.dict [("a", .int 1)]) false) = true := by
    intro p hp _
    simp only [List.mem_singleton] at hp
    subst hp
    simp [parseValue, parseFields, isMatching, dlookup, isOpt, pyTypeOf,
      isSpeRes, raiseMsg, Except.map]
  have hm : isMatching (Parser.dictOf (.type .intT id) id (fun _ => true))
      (.dict [("a", .int 1)]) true = true := by
    simp [isMatching, dictOfValsMatch, pyTypeOf]
  have hr : parseValue (Parser.dictOf (.type .intT id) id (fun _ => true))
      (.dict [("a", .int 1)]) false = .ok (.dict [("a", .int 1)]) := by
    simp [parseValue, parseDictOfVals, isMatching, pyTypeOf, Except.map]
  constructor
  · exact unionExp_first_success_and_aggregation.1
      [Parser.dictExp [("a", Parser.type .strT id)] id] []
      (Parser.dictOf (.type .intT id) id (fun _ => true)) id
      (.dict [("a", .int 1)]) (.dict [("a", .int 1)]) false hpre hm hr
  · exact unionExp_first_success_and_aggregation.2
      [Parser.dictExp [("a", Parser.type .strT id)] id] id
      (.dict [("a", .int 1)]) false hpre

theorem ckey_eq_of_pyEq {x y : Val} (h : pyEq x y = true) : ckey x = ckey y := by
  simpa [pyEq, beq_iff_eq] using h

/-- Membership up to Python `==` is invariant under `==`-equal probes. -/
theorem vmem_congr {x y : Val} (h : pyEq x y = true) (vals : List Val) :
    vmem x vals = vmem y vals := by
  have hk := ckey_eq_of_pyEq h
  simp [vmem, pyEq, hk]

theorem vmem_nil (x : Val) : vmem x [] = false := rfl

theorem vmem_cons (x v : Val) (l : List Val) :
    vmem x (v :: l) = (pyEq x v || vmem x l) := by
  simp [vmem, List.any_cons]

/-- Membership in a filtered value set is the conjunction of the two
memberships: the semantic content of Python's set intersection. -/
theorem vmem_filter (x : Val) (vals2 : List Val) :
    ∀ (vals1 : List Val),
      vmem x (vals1.filter (fun v => vmem v vals2)) = (vmem x vals1 && vmem x vals2) := by
  intro vals1
  induction vals1 with
  | nil => simp [vmem]
  | cons v rest ih =>
    by_cases hv2 : vmem v vals2 = true
    · rw [List.filter_cons, if_pos (by simpa using hv2)]
      rw [vmem_cons, vmem_cons, ih]
      cases hxv : pyEq x v with
      | true =>
        have h2 : vmem x vals2 = true := by
          rw [vmem_congr hxv]
          exact hv2
        simp [h2]
      | false => simp
    · have hv2' : vmem v vals2 = false := by simpa using hv2
      rw [List.filter_cons, if_neg (by simp [hv2'])]
      rw [vmem_cons, ih]
      cases hxv : pyEq x v with
      | true =>
        have h2 : vmem x vals2 = false := by
          rw [vmem_congr hxv]
          exact hv2'
        simp [h2]
      | false => simp

/-- Inversion of a successful `ValueMatcher.intersect`: the result keeps the
left selector, holds the filtered value set, and is not negative. -/
theorem valueMatcher_intersect_some {α : Type} {m0 m mi : ValueMatcher α}
    (h : m0.intersect m = some mi) :
    mi.selector = m0.selector ∧
    mi.values = m0.values.filter (fun v => vmem v m.values) ∧
    mi.isNegative = false := by
  by_cases he : (m0.values.filter (fun v => vmem v m.values)).isEmpty = true
  · simp [ValueMatcher.intersect, he] at h
  · simp only [ValueMatcher.intersect, he, Bool.false_eq_true, if_false,
      Option.some.injEq] at h
    subst h
    exact ⟨rfl, rfl, rfl⟩

/-- A successful intersection of two matchers over one selector accepts
exactly the objects both accept. -/
theorem valueMatcher_intersect_matchv {α : Type} {m0 m mi : ValueMatcher α}
    (hsel : m0.selector = m.selector) (h : m0.intersect m = some mi) (o : α) :
    mi.matchv o = (m0.matchv o && m.matchv o) := by
  obtain ⟨hs, hv, _⟩ := valueMatcher_intersect_some h
  simp only [ValueMatcher.matchv, hs, hv]
  rw [vmem_filter]
  rw [hsel]

/-- An empty intersection of two matchers over one selector means no object
is accepted by both. -/
theorem valueMatcher_intersect_none {α : Type} {m0 m : ValueMatcher α}
    (hsel : m0.selector = m.selector) (h : m0.intersect m = none) (o : α) :
    ¬(m0.matchv o = true ∧ m.matchv o = true) := by
  rintro ⟨h0, hm⟩
  simp only [ValueMatcher.matchv] at h0 hm
  by_cases he : (m0.values.filter (fun v => vmem v m.values)).isEmpty = true
  · have hempty : m0.values.filter (fun v => vmem v m.values) = [] :=
      List.isEmpty_iff.mp he
    have hvf : (vmem (m0.selector o) m0.values && vmem (m0.selector o) m.values)
        = false := by
      rw [← vmem_filter (m0.selector o) m.values m0.values, hempty]
      exact vmem_nil _
    rw [hsel] at hvf
    rw [hsel] at h0
    simp [h0, hm] at hvf
  · simp [ValueMatcher.intersect, he] at h

theorem dlookup_mem {β : Type} {l : List (String × β)} {k : String} {b : β}
    (h : dlookup l k = some b) : (k, b) ∈ l := by
  induction l with
  | nil => simp [dlookup] at h
  | cons kv rest ih =>
    obtain ⟨k0, v0⟩ := kv
    by_cases hk : k0 = k
    · subst hk
      simp [dlookup] at h
      subst h
      simp
    · simp [dlookup, hk] at h
      simp [ih h]

theorem dlookup_some_key_mem {β : Type} {l : List (String × β)} {k : String} {b : β}
    (h : dlookup l k = some b) : k ∈ l.map Prod.fst := by
  have := dlookup_mem h
  exact List.mem_map.mpr ⟨(k, b), this, rfl⟩

theorem dlookup_none_key_not_mem {β : Type} {l : List (String × β)} {k : String}
    (h : dlookup l k = none) : k ∉ l.map Prod.fst := by
  induction l with
  | nil => simp
  | cons kv rest ih =>
    obtain ⟨k0, v0⟩ := kv
    by_cases hk : k0 = k
    · subst hk
      simp [dlookup] at h
    · simp [dlookup, hk] at h
      simp [ih h]
      exact fun he => hk he.symm

theorem dset_keys {β : Type} (l : List (String × β)) (k : String) (b : β) :
    (dset l k b).map Prod.fst = l.map Prod.fst := by
  induction l with
  | nil => simp [dset]
  | cons kv rest ih =>
    obtain ⟨k0, v0⟩ := kv
    by_cases hk : k0 = k
    · subst hk
      simp only [dset, List.map_cons] at *
      simp [ih]
    · simp only [dset, List.map_cons] at *
      simp [hk, ih]

theorem dset_lookup_ne {β : Type} {l : List (String × β)} {k k' : String} (b : β)
    (hne : k' ≠ k) : dlookup (dset l k b) k' = dlookup l k' := by
  induction l with
  | nil => rfl
  | cons kv rest ih =>
    obtain ⟨k0, v0⟩ := kv
    simp only [dset, List.map_cons]
    by_cases hk : k0 = k
    · rw [if_pos hk]
      subst hk
      have hne0 : ¬(k0 = k') := fun h => hne h.symm
      simp only [dlookup]
      rw [if_neg hne0, if_neg hne0]
      exact ih
    · rw [if_neg hk]
      simp only [dlookup]
      by_cases hk0 : k0 = k'
      · rw [if_pos hk0, if_pos hk0]
      · rw [if_neg hk0, if_neg hk0]
        exact ih

theorem dset_not_mem {β : Type} {l : List (String × β)} {k : String} (b : β)
    (h : k ∉ l.map Prod.fst) : dset l k b = l := by
  induction l with
  | nil => simp [dset]
  | cons kv rest ih =>
    obtain ⟨k0, v0⟩ := kv
    simp only [List.map_cons, List.mem_cons] at h
    push_neg at h
    have hk : k0 ≠ k := fun he => h.1 he.symm
    simp only [dset, List.map] at *
    simp [hk]
    exact ih h.2

theorem dlookup_append {β : Type} (l1 l2 : List (String × β)) (k : String) :
    dlookup (l1 ++ l2) k =
      (match dlookup l1 k with
       | some b => some b
       | none => dlookup l2 k) := by
  induction l1 with
  | nil => simp [dlookup]
  | cons kv rest ih =>
    obtain ⟨k0, v0⟩ := kv
    by_cases hk : k0 = k
    · simp [dlookup, hk]
    · simp [dlookup, hk, ih]

theorem dset_cons {β : Type} (k0 : String) (v0 : β) (rest : List (String × β))
    (k : String) (b : β) :
    dset ((k0, v0) :: rest) k b
      = (if k0 = k then (k, b) else (k0, v0)) :: dset rest k b := by
  simp [dset]

theorem listMatch_cons {α : Type} (k : String) (m : ValueMatcher α)
    (l : List (String × ValueMatcher α)) (o : α) :
    listMatch ((k, m) :: l) o = (m.matchv o && listMatch l o) := by
  simp [listMatch, List.all_cons]

theorem listMatch_append {α : Type} (l1 l2 : List (String × ValueMatcher α)) (o : α) :
    listMatch (l1 ++ l2) o = (listMatch l1 o && listMatch l2 o) := by
  simp [listMatch, List.all_append]

theorem listMatch_lookup_true {α : Type} {l : List (String × ValueMatcher α)}
    {k : String} {m0 : ValueMatcher α} {o : α}
    (hl : dlookup l k = some m0) (hall : listMatch l o = true) :
    m0.matchv o = true := by
  have hmem := dlookup_mem hl
  simp only [listMatch] at hall
  exact List.all_eq_true.mp hall (k, m0) hmem

/-- Replacing the matcher stored under `k` by one equivalent to the
conjunction of the old matcher and an extra test conjoins that test onto the
table's verdict (keys unique, as in a Python dict). -/
theorem dset_listMatch {α : Type} (o : α) (k : String) (mi : ValueMatcher α)
    (x : Bool) :
    ∀ (acc : List (String × ValueMatcher α)) (m0 : ValueMatcher α),
      keysNodup acc → dlookup acc k = some m0 →
      mi.matchv o = (m0.matchv o && x) →
      listMatch (dset acc k mi) o = (listMatch acc o && x) := by
  intro acc
  induction acc with
  | nil =>
    intro m0 _ hl _
    simp [dlookup] at hl
  | cons kv rest ih =>
    obtain ⟨k0, v0⟩ := kv
    intro m0 hnd hl hmi
    rw [dset_cons]
    by_cases hk : k0 = k
    · subst hk
      have hv0 : v0 = m0 := by simpa [dlookup] using hl
      subst hv0
      have hnr : k0 ∉ rest.map Prod.fst :=
        (List.nodup_cons.mp (by simpa [keysNodup] using hnd)).1
      rw [if_pos rfl, dset_not_mem mi hnr]
      rw [listMatch_cons, listMatch_cons, hmi]
      cases ValueMatcher.matchv v0 o <;> cases x <;> simp
    · rw [if_neg hk]
      have hl' : dlookup rest k = some m0 := by
        simpa [dlookup, hk] using hl
      have hnd' : keysNodup rest :=
        (List.nodup_cons.mp (by simpa [keysNodup] using hnd)).2
      rw [listMatch_cons, listMatch_cons, ih m0 hnd' hl' hmi]
      cases ValueMatcher.matchv v0 o <;> cases x <;> simp

/-- When the fold in `Query.intersect` returns a matcher table, that table's
verdict on every object is the conjunction of the two input tables'
verdicts (assuming unique keys and selector-compatible tables). -/
theorem interLoop_some_sem {α : Type} (o : α) :
    ∀ (rest acc res : List (String × ValueMatcher α)),
      keysNodup acc → keysNodup rest → SelCompat acc rest →
      interLoop acc rest = some res →
      listMatch res o = (listMatch acc o && listMatch rest o) := by
  intro rest
  induction rest with
  | nil =>
    intro acc res _ _ _ h
    simp only [interLoop, Option.some.injEq] at h
    subst h
    simp [listMatch]
  | cons km rest' ih =>
    obtain ⟨k, m⟩ := km
    intro acc res hnda hndr hc h
    have hlookM : dlookup ((k, m) :: rest') k = some m := by simp [dlookup]
    have hndr' : keysNodup rest' :=
      (List.nodup_cons.mp (by simpa [keysNodup] using hndr)).2
    have hknotin : k ∉ rest'.map Prod.fst :=
      (List.nodup_cons.mp (by simpa [keysNodup] using hndr)).1
    cases hke : dlookup acc k with
    | some m0 =>
      have hsel : m0.selector = m.selector := hc k m0 m hke hlookM
      cases hint : ValueMatcher.intersect m0 m with
      | none =>
        rw [interLoop] at h
        simp only [hke, hint] at h
        exact absurd h (by simp)
      | some mi =>
        rw [interLoop] at h
        simp only [hke, hint] at h
        have hnda' : keysNodup (dset acc k mi) := by
          simpa [keysNodup, dset_keys] using hnda
        have hc' : SelCompat (dset acc k mi) rest' := by
          intro k' m1 m2 h1 h2
          by_cases hk' : k' = k
          · subst hk'
            exact absurd (dlookup_some_key_mem h2) hknotin
          · rw [dset_lookup_ne mi hk'] at h1
            have hne : ¬(k = k') := fun hh => hk' hh.symm
            exact hc k' m1 m2 h1 (by simpa [dlookup, hne] using h2)
        have hmi := valueMatcher_intersect_matchv hsel hint o
        rw [ih (dset acc k mi) res hnda' hndr' hc' h]
        rw [dset_listMatch o k mi (ValueMatcher.matchv m o) acc m0 hnda hke hmi]
        rw [listMatch_cons]
        cases listMatch acc o <;> cases ValueMatcher.matchv m o <;>
          cases listMatch rest' o <;> simp
    | none =>
      rw [interLoop] at h
      simp only [hke] at h
      have hknotacc : k ∉ acc.map Prod.fst := dlookup_none_key_not_mem hke
      have hnda' : keysNodup (acc ++ [(k, m)]) := by
        have hx : (acc.map Prod.fst ++ [k]).Nodup := by
          rw [List.nodup_append]
          refine ⟨by simpa [keysNodup] using hnda, by simp, ?_⟩
          intro a haa hak
          simp at hak
          subst hak
          exact hknotacc haa
        simpa [keysNodup, List.map_append] using hx
      have hc' : SelCompat (acc ++ [(k, m)]) rest' := by
        intro k' m1 m2 h1 h2
        by_cases hk' : k' = k
        · subst hk'
          exact absurd (dlookup_some_key_mem h2) hknotin
        · rw [dlookup_append] at h1
          have hne : ¬(k = k') := fun hh => hk' hh.symm
          cases hacc : dlookup acc k' with
          | some mm =>
            rw [hacc] at h1
            simp only [Option.some.injEq] at h1
            subst h1
            exact hc k' mm m2 hacc (by simpa [dlookup, hne] using h2)
          | none =>
            rw [hacc] at h1
            simp [dlookup, hne] at h1
      rw [ih (acc ++ [(k, m)]) res hnda' hndr' hc' h]
      rw [listMatch_append, listMatch_cons, listMatch_cons]
      cases listMatch acc o <;> cases ValueMatcher.matchv m o <;>
        cases listMatch rest' o <;> simp [listMatch]

/-- When the fold in `Query.intersect` aborts with `none`, no object
satisfies both matcher tables (same assumptions). -/
theorem interLoop_none_sem {α : Type} (o : α) :
    ∀ (rest acc : List (String × ValueMatcher α)),
      keysNodup acc → keysNodup rest → SelCompat acc rest →
      interLoop acc rest = none →
      ¬(listMatch acc o = true ∧ listMatch rest o = true) := by
  intro rest
  induction rest with
  | nil =>
    intro acc _ _ _ h
    simp [interLoop] at h
  | cons km rest' ih =>
    obtain ⟨k, m⟩ := km
    intro acc hnda hndr hc h
    rintro ⟨ha, hr⟩
    rw [listMatch_cons] at hr
    obtain ⟨hm, hr'⟩ : ValueMatcher.matchv m o = true ∧ listMatch rest' o = true := by
      simpa using hr
    have hlookM : dlookup ((k, m) :: rest') k = some m := by simp [dlookup]
    have hndr' : keysNodup rest' :=
      (List.nodup_cons.mp (by simpa [keysNodup] using hndr)).2
    have hknotin : k ∉ rest'.map Prod.fst :=
      (List.nodup_cons.mp (by simpa [keysNodup] using hndr)).1
    cases hke : dlookup acc k with
    | some m0 =>
      have hsel : m0.selector = m.selector := hc k m0 m hke hlookM
      have h0 : m0.matchv o = true := listMatch_lookup_true hke ha
      cases hint : ValueMatcher.intersect m0 m with
      | none =>
        exact valueMatcher_intersect_none hsel hint o ⟨h0, hm⟩
      | some mi =>
        rw [interLoop] at h
        simp only [hke, hint] at h
        have hnda' : keysNodup (dset acc k mi) := by
          simpa [keysNodup, dset_keys] using hnda
        have hc' : SelCompat (dset acc k mi) rest' := by
          intro k' m1 m2 h1 h2
          by_cases hk' : k' = k
          · subst hk'
            exact absurd (dlookup_some_key_mem h2) hknotin
          · rw [dset_lookup_ne mi hk'] at h1
            have hne : ¬(k = k') := fun hh => hk' hh.symm
            exact hc k' m1 m2 h1 (by simpa [dlookup, hne] using h2)
        have hmi := valueMatcher_intersect_matchv hsel hint o
        have hacc' : listMatch (dset acc k mi) o = true := by
          rw [dset_listMatch o k mi (ValueMatcher.matchv m o) acc m0 hnda hke hmi]
          rw [ha, hm]
          rfl
        exact ih (dset acc k mi) hnda' hndr' hc' h ⟨hacc', hr'⟩
    | none =>
      rw [interLoop] at h
      simp only [hke] at h
      have hknotacc : k ∉ acc.map Prod.fst := dlookup_none_key_not_mem hke
      have hnda' : keysNodup (acc ++ [(k, m)]) := by
        have hx : (acc.map Prod.fst ++ [k]).Nodup := by
          rw [List.nodup_append]
          refine ⟨by simpa [keysNodup] using hnda, by simp, ?_⟩
          intro a haa hak
          simp at hak
          subst hak
          exact hknotacc haa
        simpa [keysNodup, List.map_append] using hx
      have hc' : SelCompat (acc ++ [(k, m)]) rest' := by
        intro k' m1 m2 h1 h2
        by_cases hk' : k' = k
        · subst hk'
          exact absurd (dlookup_some_key_mem h2) hknotin
        · rw [dlookup_append] at h1
          have hne : ¬(k = k') := fun hh => hk' hh.symm
          cases hacc : dlookup acc k' with
          | some mm =>
            rw [hacc] at h1
            simp only [Option.some.injEq] at h1
            subst h1
            exact hc k' mm m2 hacc (by simpa [dlookup, hne] using h2)
          | none =>
            rw [hacc] at h1
            simp [dlookup, hne] at h1
      have hacc' : listMatch (acc ++ [(k, m)]) o = true := by
        rw [listMatch_append, ha, listMatch_cons, hm]
        simp [listMatch]
      exact ih (acc ++ [(k, m)]) hnda' hndr' hc' h ⟨hacc', hr'⟩

/-- C7 counterexample: `intersect` returning a query is not equivalent to
satisfiability of the conjunction.  Over the object type `Unit`, the empty
query intersected with a query whose single matcher has an empty acceptance
set yields `some` (the matcher is copied onto a fresh key without being
probed for emptiness), yet no object can match both inputs — the claimed
"returns no query iff no object could match both" fails in the
only-if direction. -/
theorem query_intersect_unsat_cex :
    (Query.intersect (Query.mk [] [] : Query Unit)
        (Query.mk [("a", ValueMatcher.mk (fun _ => Val.none_) [] false)] [])).isSome
      = true ∧
    (∀ o : Unit,
      ¬((Query.mk [] [] : Query Unit).matchq o = true ∧
        (Query.mk [("a", ValueMatcher.mk (fun _ => Val.none_) [] false)]
            ([] : List (String × (Unit → Val)))).matchq o = true)) := by
  constructor
  · simp [Query.intersect, interLoop, dlookup]
  · intro o
    rintro ⟨_, h2⟩
    simp [Query.matchq, listMatch, ValueMatcher.matchv, vmem] at h2

/-- C7 amended: assuming the two queries' matcher tables have unique keys
and store selector-compatible matchers under shared keys (true of every
query compiled from one selector table): when `intersect` returns no query,
no object matches both inputs; when it returns a query, that query matches
exactly the objects matching both inputs; and a successful `ValueMatcher`
intersection keeps the left selector and accepts exactly the objects both
matchers accept (set intersection of the acceptance sets).  The converse of
the first part — unsatisfiable conjunction implies no query — does not hold
(see the counterexample). -/
theorem query_intersect_amended {α : Type} (q1 q2 : Query α)
    (h1 : keysNodup q1.matchers) (h2 : keysNodup q2.matchers)
    (hc : SelCompat q1.matchers q2.matchers) :
    (q1.intersect q2 = none →
      ∀ o, ¬(q1.matchq o = true ∧ q2.matchq o = true)) ∧
    (∀ q, q1.intersect q2 = some q →
      ∀ o, q.matchq o = (q1.matchq o && q2.matchq o)) ∧
    (∀ (m1 m2 mi : ValueMatcher α), m1.selector = m2.selector →
      m1.intersect m2 = some mi →
      mi.selector = m1.selector ∧
        ∀ o, mi.matchv o = (m1.matchv o && m2.matchv o)) := by
  refine ⟨?_, ?_, ?_⟩
  · intro hnone o
    cases hx : interLoop q1.matchers q2.matchers with
    | some res =>
      rw [Query.intersect, hx] at hnone
      simp at hnone
    | none =>
      exact interLoop_none_sem o q2.matchers q1.matchers h1 h2 hc hx
  · intro q hq o
    cases hx : interLoop q1.matchers q2.matchers with
    | none =>
      rw [Query.intersect, hx] at hq
      simp at hq
    | some res =>
      rw [Query.intersect, hx] at hq
      simp only [Option.map_some', Option.some.injEq] at hq
      subst hq
      exact interLoop_some_sem o q2.matchers q1.matchers res h1 h2 hc hx
  · intro m1 m2 mi hsel hint
    exact ⟨(valueMatcher_intersect_some hint).1,
      fun o => valueMatcher_intersect_matchv hsel hint o⟩

/-- Witness for C7 at a concrete instance: two one-matcher queries over
`Unit` sharing the key `"a"` and the selector `fun _ => Val.int 0`, with
acceptance sets `[0, 1]` and `[0]`; their intersection evaluates to the
query holding the intersected matcher, which matches exactly the
conjunction at the only object `()`. -/
theorem query_intersect_amended_witness :
    (Query.mk [("a", ValueMatcher.mk (fun _ => Val.int 0) [Val.int 0] false)]
        ([] : List (String × (Unit → Val)))).matchq ()
      = ((Query.mk
            [("a", ValueMatcher.mk (fun _ => Val.int 0) [Val.int 0, Val.int 1] false)]
            ([] : List (String × (Unit → Val)))).matchq () &&
         (Query.mk [("a", ValueMatcher.mk (fun _ => Val.int 0) [Val.int 0] false)]
            ([] : List (String × (Unit → Val)))).matchq ()) := by
  have hq : Query.intersect
      (Query.mk [("a", ValueMatcher.mk (fun _ => Val.int 0) [Val.int 0, Val.int 1] false)]
        ([] : List (String × (Unit → Val))))
      (Query.mk [("a", ValueMatcher.mk (fun _ => Val.int 0) [Val.int 0] false)] [])
      = some (Query.mk [("a", ValueMatcher.mk (fun _ => Val.int 0) [Val.int 0] false)]
          ([] : List (String × (Unit → Val)))) := by
    rfl
  have hcompat : SelCompat
      ([("a", ValueMatcher.mk (fun _ => Val.int 0) [Val.int 0, Val.int 1] false)] :
        List (String × ValueMatcher Unit))
      ([("a", ValueMatcher.mk (fun _ => Val.int 0) [Val.int 0] false)] :
        List (String × ValueMatcher Unit)) := by
    intro k m1 m2 hx hy
    by_cases hk : "a" = k
    · subst hk
      simp [dlookup] at hx hy
      subst hx
      subst hy
      rfl
    · simp only [dlookup, if_neg hk] at hx
      exact absurd hx (by simp [dlookup])
  exact (query_intersect_amended _ _ (by simp [keysNodup]) (by simp [keysNodup])
    hcompat).2.1 _ hq ()

/-- C1: refuted — the per-instance selector cache survives `match_update`.
For a tree with one condition `when x in [1]` / `set out := True` over the
identity selector on integers: evaluating the object `1` from an empty cache
produces the output and leaves the entry `x := 1` in the cache (first
conjunct: the cache is *not* empty after the call); a second `match_update`
on the object `2` with that surviving cache returns the stale cached value
`1` for `x` and wrongly produces the same output (second conjunct), whereas
the same evaluation of `2` from a fresh cache produces the empty output
(third conjunct). -/
theorem selectors_cache_not_cleared :
    matchUpdateCached
        (CSwitch.applyFirst [CCondition.mk
          [("x", CMatcher.mk "x" (fun n => Val.int n) [Val.int 1])]
          (some (Setter.mk [("out", Val.bool true)])) none])
        (1 : Int) []
      = ([("out", Val.bool true)], [("x", Val.int 1)]) ∧
    (matchUpdateCached
        (CSwitch.applyFirst [CCondition.mk
          [("x", CMatcher.mk "x" (fun n => Val.int n) [Val.int 1])]
          (some (Setter.mk [("out", Val.bool true)])) none])
        (2 : Int) [("x", Val.int 1)]).1
      = [("out", Val.bool true)] ∧
    (matchUpdateCached
        (CSwitch.applyFirst [CCondition.mk
          [("x", CMatcher.mk "x" (fun n => Val.int n) [Val.int 1])]
          (some (Setter.mk [("out", Val.bool true)])) none])
        (2 : Int) []).1
      = [] := by
  have e1 : vmem (Val.int 1) [Val.int 1] = true := rfl
  have e2 : vmem (Val.int 2) [Val.int 1] = false := rfl
  refine ⟨?_, ?_, ?_⟩
  · simp [matchUpdateCached, CSwitch.matchs, ccondsFirst, CCondition.matchc,
      cqMatch, CMatcher.matchm, cacheCall, dlookup, e1, Setter.updateS,
      dictUpdate, dmem, dset]
  · simp [matchUpdateCached, CSwitch.matchs, ccondsFirst, CCondition.matchc,
      cqMatch, CMatcher.matchm, cacheCall, dlookup, e1, Setter.updateS,
      dictUpdate, dmem, dset]
  · simp [matchUpdateCached, CSwitch.matchs, ccondsFirst, CCondition.matchc,
      cqMatch, CMatcher.matchm, cacheCall, dlookup, e2, Setter.updateS,
      dictUpdate, dmem, dset]
